import Mathlib

/-! # StraightBuffer (arcemu-shared/Network/StraightBuffer.h)

A shallow embedding of the `StraightBuffer` class: a fixed-capacity byte
buffer whose valid bytes always start at offset 0 of `m_buffer`.

Modelling conventions
* `size_t` is a natural number below `SIZE_MOD = 2 ^ 64`; every `+`, `+=`,
  `-`, `-=` of the source is `addSz` / `subSz`, which wrap modulo `SIZE_MOD`.
* `m_buffer` is the memory seen through the pointer `m_buffer`: a function
  from the index `i` of `m_buffer[i]` to the byte stored there.  The block
  obtained from `malloc` is the index range `[0, space)`; larger indices are
  memory behind the block.
* A caller-supplied source pointer (`data`) is likewise a function from
  offset to byte, and the length is a separate `size_t`, as in the C
  signature.  The destination of `Read` is returned as the list of the bytes
  that `memcpy` stored into it.
* Every call returns a `Run`: the C return value, the buffer afterwards, the
  index ranges of `m_buffer` that its `memcpy` calls read or wrote (in
  program order), and whether an `ASSERT` failed.
* A `memcpy` that leaves the block `[0, space)` has undefined behaviour: it
  may crash or overwrite anything, the members of the object included.  The
  `buffer` of such a `Run` is only what the arithmetic of the function would
  give; a sequence of calls has no object after such a call (`Run.defined`,
  `Call.apply`, `runCalls` give `none`).
-/

/-- One `char` of storage. -/
abbrev Byte := Fin 256

/-- The number of values of `size_t` (64-bit target). -/
def SIZE_MOD : Nat := 18446744073709551616

/-- Addition of two `size_t` values. -/
def addSz (a b : Nat) : Nat := (a + b) % SIZE_MOD

/-- Subtraction of two `size_t` values. -/
def subSz (a b : Nat) : Nat := (a + (SIZE_MOD - b % SIZE_MOD)) % SIZE_MOD

/-- An index range `[start, start + len)` of `m_buffer` handed to `memcpy`. -/
structure Span where
  start : Nat
  len : Nat
deriving DecidableEq

/-- The range names only indices of the block `[0, space)`; an empty range
names no index at all. -/
def Span.inside (r : Span) (space : Nat) : Bool :=
  r.len == 0 || decide (r.start + r.len ≤ space)

/-- The call `memcpy(&mem[dst], src, n)` with a source outside the buffer. -/
def memcpyIn (mem : Nat → Byte) (dst : Nat) (src : Nat → Byte) (n : Nat) : Nat → Byte :=
  fun i => if dst ≤ i ∧ i < dst + n then src (i - dst) else mem i

/-- The call `memcpy(destination, mem, n)`: the bytes stored into the
destination, in order. -/
def memcpyOut (mem : Nat → Byte) (n : Nat) : List Byte :=
  (List.range n).map mem

/-- The call `memcpy(&mem[dst], &mem[src], n)` inside one memory, as the
ascending byte-by-byte copy loop: the two ranges may overlap, and then a byte
read late may already have been overwritten. -/
def memcpyWithin (mem : Nat → Byte) (dst src : Nat) : Nat → (Nat → Byte)
  | 0 => mem
  | n + 1 => memcpyWithin (Function.update mem dst (mem src)) (dst + 1) (src + 1) n

/-- The data members of the class. -/
structure StraightBuffer where
  /-- Memory behind the pointer `m_buffer`. -/
  m_buffer : Nat → Byte
  /-- How many bytes were allocated. -/
  space : Nat
  /-- How many bytes are currently stored. -/
  written : Nat

/-- What one member-function call did. -/
structure Run (α : Type) where
  /-- The C return value. -/
  ret : α
  /-- The object after the call. -/
  buffer : StraightBuffer
  /-- The ranges of `m_buffer` read or written by `memcpy`, in program order. -/
  touched : List Span
  /-- Some `ASSERT` was reached with a false condition. -/
  assertFailed : Bool

/-- Every `memcpy` range of the call lies in the allocated block. -/
def Run.inBounds {α : Type} (r : Run α) : Bool :=
  r.touched.all (fun sp => sp.inside r.buffer.space)

/-- Modelled from the spec: the `ASSERT` macro, whose header is not part of
this source.  A false condition flags an error (a defect, fatal in a debug
build); the production build carries on with the statements that follow, and
that continuation is what the embedding executes.  The result is the new
value of the error flag. -/
def ASSERT (failedBefore : Bool) (cond : Bool) : Bool :=
  failedBefore || !cond

namespace StraightBuffer

/-- The constructor: `space = written = 0; m_buffer = 0`. -/
def new : StraightBuffer :=
  { m_buffer := fun _ => 0, space := 0, written := 0 }

/-- The function `Read(void * destination, size_t bytes)`.  The return value
is paired with the bytes stored into `destination`. -/
def Read (s : StraightBuffer) (bytes : Nat) : Run (Bool × List Byte) :=
  if s.written ≤ bytes then
    { ret := (false, memcpyOut s.m_buffer s.written)
      buffer := { s with written := 0 }
      touched := [⟨0, s.written⟩]
      assertFailed := ASSERT false (decide (s.written ≥ bytes)) }
  else
    let written := subSz s.written bytes
    { ret := (true, memcpyOut s.m_buffer bytes)
      buffer := { s with m_buffer := memcpyWithin s.m_buffer 0 bytes written
                         written := written }
      touched := [⟨0, bytes⟩, ⟨bytes, written⟩, ⟨0, written⟩]
      assertFailed := false }

/-- The function `Write(const void * data, size_t bytes)`. -/
def Write (s : StraightBuffer) (data : Nat → Byte) (bytes : Nat) : Run Bool :=
  if addSz s.written bytes ≥ s.space then
    { ret := false, buffer := s, touched := [], assertFailed := false }
  else
    { ret := true
      buffer := { s with m_buffer := memcpyIn s.m_buffer s.written data bytes
                         written := addSz s.written bytes }
      touched := [⟨s.written, bytes⟩]
      assertFailed := false }

/-- The overload
`Write(const void * data, const void * data1, size_t bytes, size_t bytes1)`. -/
def Write2 (s : StraightBuffer) (data data1 : Nat → Byte) (bytes bytes1 : Nat) : Run Bool :=
  if addSz (addSz s.written bytes) bytes1 ≥ s.space then
    { ret := false, buffer := s, touched := [], assertFailed := false }
  else
    let mem := memcpyIn s.m_buffer s.written data bytes
    let written := addSz s.written bytes
    if bytes1 > 0 then
      { ret := true
        buffer := { s with m_buffer := memcpyIn mem written data1 bytes1
                           written := addSz written bytes1 }
        touched := [⟨s.written, bytes⟩, ⟨written, bytes1⟩]
        assertFailed := false }
    else
      { ret := true
        buffer := { s with m_buffer := mem, written := written }
        touched := [⟨s.written, bytes⟩]
        assertFailed := false }

/-- The function `GetSpace()`. -/
def GetSpace (s : StraightBuffer) : Nat := subSz s.space s.written

/-- The function `GetSize()`. -/
def GetSize (s : StraightBuffer) : Nat := s.written

/-- The function `Remove(size_t len)`. -/
def Remove (s : StraightBuffer) (len : Nat) : Run Unit :=
  let failed := ASSERT false (len == 0 || decide (s.written ≥ len))
  if len ≥ s.written then
    { ret := (), buffer := { s with written := 0 }, touched := [], assertFailed := failed }
  else
    let written := subSz s.written len
    if written ≠ 0 then
      { ret := ()
        buffer := { s with m_buffer := memcpyWithin s.m_buffer 0 len written
                           written := written }
        touched := [⟨len, written⟩, ⟨0, written⟩]
        assertFailed := failed }
    else
      { ret := (), buffer := { s with written := written }, touched := []
        assertFailed := failed }

/-- The function `GetBuffer()`: the pointer `&m_buffer[written]`, as the index
it points at. -/
def GetBuffer (s : StraightBuffer) : Nat := s.written

/-- The function `GetBufferStart()`: the pointer `m_buffer`, index 0. -/
def GetBufferStart (_s : StraightBuffer) : Nat := 0

/-- The function `Allocate(size_t size)`.  `block` is the memory `malloc`
hands out, with whatever it happens to contain; `written` is not assigned. -/
def Allocate (s : StraightBuffer) (size : Nat) (block : Nat → Byte) : StraightBuffer :=
  { s with m_buffer := block, space := size }

/-- The function `IncrementWritten(size_t len)`. -/
def IncrementWritten (s : StraightBuffer) (len : Nat) : Run Unit :=
  if addSz s.written len < s.space then
    { ret := (), buffer := { s with written := addSz s.written len }, touched := []
      assertFailed := false }
  else if len < s.space then
    { ret := (), buffer := { s with written := subSz s.space len }, touched := []
      assertFailed := ASSERT false false }
  else
    { ret := (), buffer := { s with written := 0 }, touched := []
      assertFailed := ASSERT false false }

/-- The valid bytes `m_buffer[0 .. written)`. -/
def contents (s : StraightBuffer) : List Byte :=
  (List.range s.written).map s.m_buffer

end StraightBuffer

/-- One call on the buffer, with its arguments. -/
inductive Call where
  | write (data : Nat → Byte) (bytes : Nat)
  | write2 (data data1 : Nat → Byte) (bytes bytes1 : Nat)
  | read (bytes : Nat)
  | remove (len : Nat)
  | incrementWritten (len : Nat)

/-- The object after the call, when there is one: `some` buffer when every
`memcpy` range of the call lies in the block, `none` when a copy leaves the
block and the behaviour of the call is undefined. -/
def Run.defined {α : Type} (r : Run α) : Option StraightBuffer :=
  if r.inBounds = true then some r.buffer else none

/-- The buffer after one call, if the call has defined behaviour. -/
def Call.apply (s : StraightBuffer) : Call → Option StraightBuffer
  | .write data bytes => (s.Write data bytes).defined
  | .write2 data data1 bytes bytes1 => (s.Write2 data data1 bytes bytes1).defined
  | .read bytes => (s.Read bytes).defined
  | .remove len => (s.Remove len).defined
  | .incrementWritten len => (s.IncrementWritten len).defined

/-- The buffer after a sequence of calls, first call first; `none` as soon as
one call has undefined behaviour. -/
def runCalls (s : StraightBuffer) : List Call → Option StraightBuffer
  | [] => some s
  | c :: cs =>
    match c.apply s with
    | some t => runCalls t cs
    | none => none

/-- The region `A ++ B`: `lenA` bytes of `A` followed by the bytes of `B`. -/
def appendRegions (A : Nat → Byte) (lenA : Nat) (B : Nat → Byte) : Nat → Byte :=
  fun i => if i < lenA then A i else B (i - lenA)

/-- A concrete buffer: `Allocate(16)` on a new object, then five bytes
`1, 2, 3, 4, 5` written. -/
def fiveOfSixteen : StraightBuffer :=
  ((StraightBuffer.new.Allocate 16 (fun _ => 0)).Write (fun i => Fin.ofNat (i + 1)) 5).buffer

/-- A concrete source region: the bytes `101, 102, 103, ...`. -/
def sampleData : Nat → Byte := fun i => Fin.ofNat (i + 101)

/-- Modelled from the spec: the direct write of the transport, which is code
outside this class.  The caller stores `len` bytes of `data` at the pointer
returned by `GetBuffer()`; no member of the object is assigned. -/
def directWrite (s : StraightBuffer) (data : Nat → Byte) (len : Nat) : StraightBuffer :=
  { s with m_buffer := memcpyIn s.m_buffer s.GetBuffer data len }

/-- A concrete buffer: `Allocate(2^64 - 1)` on a new object, then
`IncrementWritten(2^64 - 2)`. -/
def hugeAlmostFull : StraightBuffer :=
  ((StraightBuffer.new.Allocate 18446744073709551615 (fun _ => 0)).IncrementWritten
    18446744073709551614).buffer

/-- A concrete call sequence for a buffer of capacity 16: five bytes
`1, 2, 3, 4, 5` are written, then `Write(data, data1, 3, 2^64 - 3)`. -/
def wrappingCalls : List Call :=
  [Call.write (fun i => Fin.ofNat (i + 1)) 5,
    Call.write2 sampleData sampleData 3 18446744073709551613]

/-! ## Arithmetic of `size_t` and the copy loop -/

theorem addSz_of_lt {a b : Nat} (h : a + b < SIZE_MOD) : addSz a b = a + b := by
  unfold addSz
  exact Nat.mod_eq_of_lt h

theorem subSz_of_le {a b : Nat} (hb : b ≤ a) (ha : a < SIZE_MOD) : subSz a b = a - b := by
  unfold subSz SIZE_MOD at *
  omega

theorem subSz_le (a b : Nat) (hb : b < a) : subSz a b ≤ a := by
  unfold subSz SIZE_MOD
  omega

/-- The ascending copy loop with `dst ≤ src` behaves like a copy from a
snapshot: the overlap is harmless in this direction. -/
theorem memcpyWithin_apply (n : Nat) :
    ∀ (mem : Nat → Byte) (dst src i : Nat), dst ≤ src →
      memcpyWithin mem dst src n i =
        if dst ≤ i ∧ i < dst + n then mem (src + (i - dst)) else mem i := by
  induction n with
  | zero =>
    intro mem dst src i _
    have : ¬ (dst ≤ i ∧ i < dst + 0) := by omega
    rw [memcpyWithin, if_neg this]
  | succ n ih =>
    intro mem dst src i h
    rw [memcpyWithin, ih _ _ _ _ (Nat.succ_le_succ h)]
    by_cases h1 : dst + 1 ≤ i ∧ i < dst + 1 + n
    · have h2 : dst ≤ i ∧ i < dst + (n + 1) := by omega
      have h3 : src + 1 + (i - (dst + 1)) ≠ dst := by omega
      have h4 : src + 1 + (i - (dst + 1)) = src + (i - dst) := by omega
      rw [if_pos h1, if_pos h2, Function.update_noteq h3, h4]
    · rw [if_neg h1]
      by_cases h5 : i = dst
      · subst h5
        have h2 : i ≤ i ∧ i < i + (n + 1) := by omega
        rw [if_pos h2, Function.update_same]
        simp
      · have h2 : ¬ (dst ≤ i ∧ i < dst + (n + 1)) := by omega
        rw [if_neg h2, Function.update_noteq h5]

/-- Front compaction: after `memcpy(&m_buffer[0], &m_buffer[len], n)` the
first `n` bytes are the old bytes at `len, len + 1, ...`. -/
theorem memcpyWithin_front (mem : Nat → Byte) (len n i : Nat) (hi : i < n) :
    memcpyWithin mem 0 len n i = mem (len + i) := by
  rw [memcpyWithin_apply n mem 0 len i (Nat.zero_le _)]
  have : 0 ≤ i ∧ i < 0 + n := by omega
  rw [if_pos this]
  simp

/-! ## The capacity invariant along call sequences -/

theorem Run.defined_some {α : Type} {r : Run α} {t : StraightBuffer}
    (h : r.defined = some t) : t = r.buffer ∧ r.inBounds = true := by
  unfold Run.defined at h
  by_cases hin : r.inBounds = true
  · rw [if_pos hin] at h
    exact ⟨(Option.some.inj h).symm, hin⟩
  · rw [if_neg hin] at h
    cases h

theorem Call.apply_space (s t : StraightBuffer) (c : Call) (h : c.apply s = some t) :
    t.space = s.space := by
  cases c <;> simp only [Call.apply] at h <;> obtain ⟨rfl, _⟩ := Run.defined_some h <;>
    simp only [StraightBuffer.Write, StraightBuffer.Write2, StraightBuffer.Read,
      StraightBuffer.Remove, StraightBuffer.IncrementWritten] <;>
    repeat (first | rfl | split)

theorem Call.apply_written_le (s t : StraightBuffer) (c : Call) (h : c.apply s = some t)
    (hw : s.written ≤ s.space) : t.written ≤ t.space := by
  cases c with
  | write data bytes =>
    simp only [Call.apply] at h
    obtain ⟨rfl, _⟩ := Run.defined_some h
    simp only [StraightBuffer.Write]
    split
    · exact hw
    · simp only; omega
  | write2 data data1 bytes bytes1 =>
    simp only [Call.apply] at h
    obtain ⟨rfl, _⟩ := Run.defined_some h
    simp only [StraightBuffer.Write2]
    split
    · exact hw
    · split
      · simp only; omega
      · rename_i h1 h2
        have hz : bytes1 = 0 := by omega
        subst hz
        simp only [addSz, SIZE_MOD] at h1 ⊢
        omega
  | read bytes =>
    simp only [Call.apply] at h
    obtain ⟨rfl, _⟩ := Run.defined_some h
    simp only [StraightBuffer.Read]
    split
    · simp
    · have := subSz_le s.written bytes (by omega)
      simp only; omega
  | remove len =>
    simp only [Call.apply] at h
    obtain ⟨rfl, _⟩ := Run.defined_some h
    simp only [StraightBuffer.Remove]
    split
    · simp
    · have := subSz_le s.written len (by omega)
      split <;> simp only <;> omega
  | incrementWritten len =>
    simp only [Call.apply] at h
    obtain ⟨rfl, _⟩ := Run.defined_some h
    simp only [StraightBuffer.IncrementWritten]
    split
    · simp only; omega
    · split
      · rename_i h1 h2
        have := subSz_le s.space len h2
        simp only; omega
      · simp

/-- While `written < space` holds and `space` is a `size_t`, every call with
defined behaviour keeps it: the buffer never fills up completely. -/
theorem Call.apply_written_lt (s t : StraightBuffer) (c : Call) (h : c.apply s = some t)
    (hs : s.space < SIZE_MOD) (hw : s.written < s.space) : t.written < t.space := by
  cases c with
  | write data bytes =>
    simp only [Call.apply] at h
    obtain ⟨rfl, _⟩ := Run.defined_some h
    simp only [StraightBuffer.Write]
    split
    · exact hw
    · simp only; omega
  | write2 data data1 bytes bytes1 =>
    simp only [Call.apply] at h
    obtain ⟨rfl, _⟩ := Run.defined_some h
    simp only [StraightBuffer.Write2]
    split
    · exact hw
    · split
      · simp only; omega
      · rename_i h1 h2
        have hz : bytes1 = 0 := by omega
        subst hz
        simp only [addSz, SIZE_MOD] at h1 ⊢
        omega
  | read bytes =>
    simp only [Call.apply] at h
    obtain ⟨rfl, _⟩ := Run.defined_some h
    simp only [StraightBuffer.Read]
    split
    · simp only; omega
    · have := subSz_le s.written bytes (by omega)
      simp only; omega
  | remove len =>
    simp only [Call.apply] at h
    obtain ⟨rfl, _⟩ := Run.defined_some h
    simp only [StraightBuffer.Remove]
    split
    · simp only; omega
    · have := subSz_le s.written len (by omega)
      split <;> simp only <;> omega
  | incrementWritten len =>
    simp only [Call.apply] at h
    obtain ⟨rfl, _⟩ := Run.defined_some h
    simp only [StraightBuffer.IncrementWritten]
    split
    · simp only; omega
    · split
      · rename_i h1 h2
        have hsub : subSz s.space len = s.space - len := subSz_of_le (by omega) hs
        have hpos : len ≠ 0 := by
          intro h0
          subst h0
          simp only [addSz, SIZE_MOD] at h1 hs
          omega
        simp only [hsub]
        omega
      · simp only; omega

/-- On an object that has no storage yet (`space = 0`, `written = 0`, as the
constructor leaves it) every call has defined behaviour and changes nothing
of that. -/
theorem Call.apply_unallocated (s : StraightBuffer) (c : Call)
    (hw : s.written = 0) (hsp : s.space = 0) :
    ∃ t, c.apply s = some t ∧ t.written = 0 ∧ t.space = 0 := by
  cases c with
  | write data bytes =>
    have hfull : addSz s.written bytes ≥ s.space := by omega
    refine ⟨s, ?_, hw, hsp⟩
    simp only [Call.apply, StraightBuffer.Write, if_pos hfull, Run.defined, Run.inBounds,
      List.all_nil, if_true]
  | write2 data data1 bytes bytes1 =>
    have hfull : addSz (addSz s.written bytes) bytes1 ≥ s.space := by omega
    refine ⟨s, ?_, hw, hsp⟩
    simp only [Call.apply, StraightBuffer.Write2, if_pos hfull, Run.defined, Run.inBounds,
      List.all_nil, if_true]
  | read bytes =>
    have hle : s.written ≤ bytes := by omega
    refine ⟨{ s with written := 0 }, ?_, rfl, hsp⟩
    simp [Call.apply, StraightBuffer.Read, hle, Run.defined, Run.inBounds, Span.inside, hw]
  | remove len =>
    have hge : len ≥ s.written := by omega
    refine ⟨{ s with written := 0 }, ?_, rfl, hsp⟩
    simp [Call.apply, StraightBuffer.Remove, hge, Run.defined, Run.inBounds]
  | incrementWritten len =>
    have h1 : ¬ (addSz s.written len < s.space) := by omega
    have h2 : ¬ (len < s.space) := by omega
    refine ⟨{ s with written := 0 }, ?_, rfl, hsp⟩
    simp [Call.apply, StraightBuffer.IncrementWritten, h1, h2, Run.defined, Run.inBounds]

theorem runCalls_space (calls : List Call) :
    ∀ s t : StraightBuffer, runCalls s calls = some t → t.space = s.space := by
  induction calls with
  | nil =>
    intro s t h
    simp only [runCalls] at h
    cases h
    rfl
  | cons c cs ih =>
    intro s t h
    simp only [runCalls] at h
    cases hc : c.apply s with
    | none => rw [hc] at h; cases h
    | some u =>
      rw [hc] at h
      rw [ih u t h, Call.apply_space s u c hc]

/-- Along a call sequence with defined behaviour `written ≤ space` is kept. -/
theorem runCalls_written_le (calls : List Call) :
    ∀ s t : StraightBuffer, runCalls s calls = some t → s.written ≤ s.space →
      t.written ≤ t.space := by
  induction calls with
  | nil =>
    intro s t h hw
    simp only [runCalls] at h
    cases h
    exact hw
  | cons c cs ih =>
    intro s t h hw
    simp only [runCalls] at h
    cases hc : c.apply s with
    | none => rw [hc] at h; cases h
    | some u =>
      rw [hc] at h
      exact ih u t h (Call.apply_written_le s u c hc hw)

/-- Along a call sequence with defined behaviour `written < space` is kept. -/
theorem runCalls_written_lt (calls : List Call) :
    ∀ s t : StraightBuffer, runCalls s calls = some t → s.space < SIZE_MOD →
      s.written < s.space → t.written < t.space := by
  induction calls with
  | nil =>
    intro s t h _ hw
    simp only [runCalls] at h
    cases h
    exact hw
  | cons c cs ih =>
    intro s t h hs hw
    simp only [runCalls] at h
    cases hc : c.apply s with
    | none => rw [hc] at h; cases h
    | some u =>
      rw [hc] at h
      exact ih u t h (by rw [Call.apply_space s u c hc]; exact hs)
        (Call.apply_written_lt s u c hc hs hw)

/-- Before any `Allocate`, every call sequence on a new object has defined
behaviour and leaves `written = 0`, `space = 0`. -/
theorem runCalls_unallocated (calls : List Call) :
    ∀ s : StraightBuffer, s.written = 0 → s.space = 0 →
      ∃ t, runCalls s calls = some t ∧ t.written = 0 ∧ t.space = 0 := by
  induction calls with
  | nil =>
    intro s hw hsp
    exact ⟨s, rfl, hw, hsp⟩
  | cons c cs ih =>
    intro s hw hsp
    obtain ⟨u, hu, huw, husp⟩ := Call.apply_unallocated s c hw hsp
    obtain ⟨t, ht, htw, htsp⟩ := ih u huw husp
    refine ⟨t, ?_, htw, htsp⟩
    simp only [runCalls, hu]
    exact ht

/-- After `Allocate(capacity)` on a new object, along every call sequence with
defined behaviour: `space` stays the capacity, `written ≤ space`, and
`GetSpace() + GetSize()` is the capacity. -/
theorem runCalls_sizes (capacity : Nat) (block : Nat → Byte) (calls : List Call)
    (t : StraightBuffer) (hcap : capacity < SIZE_MOD)
    (h : runCalls (StraightBuffer.new.Allocate capacity block) calls = some t) :
    t.space = capacity ∧ t.written ≤ t.space ∧ t.GetSpace + t.GetSize = capacity := by
  have hsp : t.space = capacity := runCalls_space calls _ t h
  have hle : t.written ≤ t.space := runCalls_written_le calls _ t h (Nat.zero_le _)
  have hsub := subSz_of_le hle (by rw [hsp]; exact hcap)
  unfold StraightBuffer.GetSpace StraightBuffer.GetSize
  rw [hsub]
  exact ⟨hsp, hle, by omega⟩

/-- After `Allocate(capacity)` with `0 < capacity` on a new object, along
every call sequence with defined behaviour the buffer is never full. -/
theorem runCalls_never_full (capacity : Nat) (block : Nat → Byte) (calls : List Call)
    (t : StraightBuffer) (hpos : 0 < capacity) (hcap : capacity < SIZE_MOD)
    (h : runCalls (StraightBuffer.new.Allocate capacity block) calls = some t) :
    t.written < t.space ∧ t.GetSpace ≥ 1 := by
  have hsp : t.space = capacity := runCalls_space calls _ t h
  have hlt : t.written < t.space := runCalls_written_lt calls _ t h hcap hpos
  have hsub := subSz_of_le (Nat.le_of_lt hlt) (by rw [hsp]; exact hcap)
  unfold StraightBuffer.GetSpace
  rw [hsub]
  exact ⟨hlt, by omega⟩

/-! ## Calls whose copies stay inside the block -/

theorem Read_inBounds (s : StraightBuffer) (len : Nat)
    (hs : s.space < SIZE_MOD) (hw : s.written ≤ s.space) : (s.Read len).inBounds = true := by
  unfold StraightBuffer.Read
  by_cases h : s.written ≤ len
  · rw [if_pos h]
    simp only [Run.inBounds, List.all_cons, List.all_nil, Bool.and_true, Span.inside,
      Bool.or_eq_true, beq_iff_eq, decide_eq_true_eq]
    omega
  · have hsub : subSz s.written len = s.written - len := subSz_of_le (by omega) (by omega)
    rw [if_neg h]
    simp only [hsub, Run.inBounds, List.all_cons, List.all_nil, Bool.and_true, Span.inside,
      Bool.and_eq_true, Bool.or_eq_true, beq_iff_eq, decide_eq_true_eq]
    omega

theorem Remove_inBounds (s : StraightBuffer) (len : Nat)
    (hs : s.space < SIZE_MOD) (hw : s.written ≤ s.space) : (s.Remove len).inBounds = true := by
  unfold StraightBuffer.Remove
  by_cases h : len ≥ s.written
  · simp only [if_pos h]
    rfl
  · have hsub : subSz s.written len = s.written - len := subSz_of_le (by omega) (by omega)
    have hpos : s.written - len ≠ 0 := by omega
    simp only [if_neg h, hsub, if_pos hpos, Run.inBounds, List.all_cons, List.all_nil,
      Bool.and_true, Span.inside, Bool.and_eq_true, Bool.or_eq_true, beq_iff_eq,
      decide_eq_true_eq]
    omega

theorem Write_inBounds_of_no_wrap (s : StraightBuffer) (data : Nat → Byte) (len : Nat)
    (hno : s.written + len < SIZE_MOD) : (s.Write data len).inBounds = true := by
  have hadd : addSz s.written len = s.written + len := addSz_of_lt hno
  unfold StraightBuffer.Write
  by_cases h : addSz s.written len ≥ s.space
  · rw [if_pos h]
    rfl
  · rw [if_neg h]
    simp only [Run.inBounds, List.all_cons, List.all_nil, Bool.and_true, Span.inside,
      Bool.or_eq_true, beq_iff_eq, decide_eq_true_eq]
    omega


/-! ## Claims -/

/-- C1 (failing input): on a new object, `Allocate(16)` and a `Write` of five
bytes give the buffer with `written = 5 ≤ space = 16`.  The next call
`Write(data, data1, 3, 2^64 - 3)` has `size_t` arguments and passes the fit
check, because `5 + 3 + (2^64 - 3)` wraps to 5; it returns true after a
`memcpy` that leaves the block, so the sequence has no defined object after
it in which `written ≤ space` could hold. -/
theorem wrapped_Write2_ends_sequence :
    3 < SIZE_MOD ∧ 18446744073709551613 < SIZE_MOD
      ∧ runCalls (StraightBuffer.new.Allocate 16 (fun _ => 0)) (wrappingCalls.take 1)
          = some fiveOfSixteen
      ∧ fiveOfSixteen.written ≤ fiveOfSixteen.space
      ∧ (fiveOfSixteen.Write2 sampleData sampleData 3 18446744073709551613).ret = true
      ∧ (fiveOfSixteen.Write2 sampleData sampleData 3 18446744073709551613).inBounds = false
      ∧ (runCalls (StraightBuffer.new.Allocate 16 (fun _ => 0)) wrappingCalls).isSome
          = false := by
  refine ⟨by decide, by decide, rfl, by decide, by decide, by decide, by decide⟩

/-- C2 (failing input): on the buffer with `space = 16`, `written = 5` the call
`Write(data, 2^64 - 3)` passes the fit check because `5 + (2^64 - 3)` wraps to
2, and its `memcpy` range `[5, 5 + 2^64 - 3)` contains index 16, outside the
block; likewise `Write(data, data, 2^63, 2^63)` on the same buffer (the sum
wraps to 5) copies `[5, 5 + 2^63)`. -/
theorem Write_copies_outside_block :
    fiveOfSixteen.written ≤ fiveOfSixteen.space
      ∧ fiveOfSixteen.space = 16
      ∧ (∃ sp ∈ (fiveOfSixteen.Write sampleData 18446744073709551613).touched,
          sp.start ≤ 16 ∧ 16 < sp.start + sp.len)
      ∧ (fiveOfSixteen.Write sampleData 18446744073709551613).inBounds = false
      ∧ (∃ sp ∈ (fiveOfSixteen.Write2 sampleData sampleData
              9223372036854775808 9223372036854775808).touched,
          sp.start ≤ 16 ∧ 16 < sp.start + sp.len)
      ∧ (fiveOfSixteen.Write2 sampleData sampleData
              9223372036854775808 9223372036854775808).inBounds = false := by
  refine ⟨by decide, by decide, ⟨⟨5, 18446744073709551613⟩, by decide, by decide, by decide⟩,
    by decide, ⟨⟨5, 9223372036854775808⟩, by decide, by decide, by decide⟩, by decide⟩

/-- C3 (failing input): on the buffer with `space = 16`, `written = 5` the
length `2^64 - 3` is a `size_t`, the unbounded sum `written + len` is far
above `space`, and `Write` returns true, leaving `written = 2`. -/
theorem Write_succeeds_on_wrapped_sum :
    fiveOfSixteen.written = 5 ∧ fiveOfSixteen.space = 16
      ∧ 18446744073709551613 < SIZE_MOD
      ∧ fiveOfSixteen.written + 18446744073709551613 ≥ fiveOfSixteen.space
      ∧ (fiveOfSixteen.Write sampleData 18446744073709551613).ret = true
      ∧ (fiveOfSixteen.Write sampleData 18446744073709551613).buffer.written = 2 := by
  decide

/-- C4: when `space` is a `size_t` and `written + len < space`, `Write(data, len)`
returns true, `written` grows by exactly `len`, `space` is unchanged, the bytes
at `[0, old written)` are unchanged and the bytes at
`[old written, old written + len)` are `data[0 .. len)`. -/
theorem Write_success (s : StraightBuffer) (data : Nat → Byte) (len : Nat)
    (hs : s.space < SIZE_MOD) (hfit : s.written + len < s.space) :
    (s.Write data len).ret = true
      ∧ (s.Write data len).buffer.written = s.written + len
      ∧ (s.Write data len).buffer.space = s.space
      ∧ (∀ i, i < s.written → (s.Write data len).buffer.m_buffer i = s.m_buffer i)
      ∧ (∀ i, i < len → (s.Write data len).buffer.m_buffer (s.written + i) = data i) := by
  have hadd : addSz s.written len = s.written + len := addSz_of_lt (by omega)
  have hno : ¬ (addSz s.written len ≥ s.space) := by omega
  unfold StraightBuffer.Write
  rw [if_neg hno]
  simp only [hadd, memcpyIn]
  refine ⟨trivial, trivial, trivial, ?_, ?_⟩
  · intro i hi
    have : ¬ (s.written ≤ i ∧ i < s.written + len) := by omega
    rw [if_neg this]
  · intro i hi
    have : s.written ≤ s.written + i ∧ s.written + i < s.written + len := by omega
    rw [if_pos this]
    congr 1
    omega

/-- Witness for C4: seven bytes fit behind the five stored ones of sixteen. -/
theorem Write_success_witness :
    fiveOfSixteen.space < SIZE_MOD ∧ fiveOfSixteen.written + 7 < fiveOfSixteen.space
      ∧ (fiveOfSixteen.Write sampleData 7).ret = true
      ∧ (fiveOfSixteen.Write sampleData 7).buffer.written = fiveOfSixteen.written + 7 :=
  ⟨by decide, by decide,
    (Write_success fiveOfSixteen sampleData 7 (by decide) (by decide)).1,
    (Write_success fiveOfSixteen sampleData 7 (by decide) (by decide)).2.1⟩

/-- C5: whenever `Write(data, len)` or the two-region
`Write(dataA, dataB, lenA, lenB)` returns false, the object afterwards is
the object before (`written`, `space` and all of memory), and no `memcpy`
was issued at all. -/
theorem failed_Write_leaves_buffer (s : StraightBuffer) (data dataA dataB : Nat → Byte)
    (len lenA lenB : Nat) :
    ((s.Write data len).ret = false →
        (s.Write data len).buffer = s ∧ (s.Write data len).touched = [])
      ∧ ((s.Write2 dataA dataB lenA lenB).ret = false →
        (s.Write2 dataA dataB lenA lenB).buffer = s
          ∧ (s.Write2 dataA dataB lenA lenB).touched = []) := by
  constructor
  · unfold StraightBuffer.Write
    split
    · intro _; exact ⟨rfl, rfl⟩
    · intro h; simp at h
  · unfold StraightBuffer.Write2
    split
    · intro _; exact ⟨rfl, rfl⟩
    · simp only
      split <;> (intro h; simp at h)

/-- Witness for C5: eleven more bytes (and six plus five) do not fit behind
five of sixteen, and the buffer stays as it was. -/
theorem failed_Write_leaves_buffer_witness :
    (fiveOfSixteen.Write sampleData 11).ret = false
      ∧ (fiveOfSixteen.Write sampleData 11).buffer = fiveOfSixteen
      ∧ (fiveOfSixteen.Write2 sampleData sampleData 6 5).ret = false
      ∧ (fiveOfSixteen.Write2 sampleData sampleData 6 5).buffer = fiveOfSixteen :=
  ⟨by decide,
    ((failed_Write_leaves_buffer fiveOfSixteen sampleData sampleData sampleData 11 6 5).1
      (by decide)).1,
    by decide,
    ((failed_Write_leaves_buffer fiveOfSixteen sampleData sampleData sampleData 11 6 5).2
      (by decide)).1⟩

/-- Copying `A` and then `B` right behind it is copying `A ++ B`. -/
theorem memcpyIn_append (mem A B : Nat → Byte) (w a b i : Nat) :
    memcpyIn (memcpyIn mem w A a) (w + a) B b i
      = memcpyIn mem w (appendRegions A a B) (a + b) i := by
  unfold memcpyIn appendRegions
  by_cases h1 : w + a ≤ i ∧ i < w + a + b
  · have h2 : w ≤ i ∧ i < w + (a + b) := by omega
    have h3 : ¬ (i - w < a) := by omega
    have h4 : i - (w + a) = i - w - a := by omega
    rw [if_pos h1, if_pos h2, if_neg h3, h4]
  · rw [if_neg h1]
    by_cases h5 : w ≤ i ∧ i < w + a
    · have h2 : w ≤ i ∧ i < w + (a + b) := by omega
      have h3 : i - w < a := by omega
      rw [if_pos h5, if_pos h2, if_pos h3]
    · have h2 : ¬ (w ≤ i ∧ i < w + (a + b)) := by omega
      rw [if_neg h5, if_neg h2]

/-- C6: for a buffer with `written ≤ space` and region lengths whose sum
`lenA + lenB` is a `size_t` (the length of `A ++ B`), the two-region
`Write(A, B, lenA, lenB)` and `Write(A ++ B, lenA + lenB)` return the same
boolean (one joint fit check) and leave the same `written` and `space`; the
one stays inside the block exactly when the other does, which is so whenever
`written + lenA + lenB` does not wrap; and when they stay inside the block
they leave the same valid bytes.  `lenB = 0` is included. -/
theorem Write2_agrees_with_Write_append (s : StraightBuffer) (A B : Nat → Byte)
    (lenA lenB : Nat) (hs : s.space < SIZE_MOD) (hw : s.written ≤ s.space)
    (hAB : lenA + lenB < SIZE_MOD) :
    (s.Write2 A B lenA lenB).ret = (s.Write (appendRegions A lenA B) (lenA + lenB)).ret
      ∧ (s.Write2 A B lenA lenB).buffer.written
          = (s.Write (appendRegions A lenA B) (lenA + lenB)).buffer.written
      ∧ (s.Write2 A B lenA lenB).buffer.space
          = (s.Write (appendRegions A lenA B) (lenA + lenB)).buffer.space
      ∧ (s.Write2 A B lenA lenB).inBounds
          = (s.Write (appendRegions A lenA B) (lenA + lenB)).inBounds
      ∧ (s.written + lenA + lenB < SIZE_MOD → (s.Write2 A B lenA lenB).inBounds = true)
      ∧ ((s.Write2 A B lenA lenB).inBounds = true →
          ∀ i, i < (s.Write2 A B lenA lenB).buffer.written →
            (s.Write2 A B lenA lenB).buffer.m_buffer i
              = (s.Write (appendRegions A lenA B) (lenA + lenB)).buffer.m_buffer i) := by
  have hc : addSz (addSz s.written lenA) lenB = addSz s.written (lenA + lenB) := by
    unfold addSz SIZE_MOD
    omega
  unfold StraightBuffer.Write2 StraightBuffer.Write
  rw [hc]
  by_cases hfull : addSz s.written (lenA + lenB) ≥ s.space
  · rw [if_pos hfull, if_pos hfull]
    simp [Run.inBounds]
  · rw [if_neg hfull, if_neg hfull]
    by_cases hB : lenB > 0
    · rw [if_pos hB]
      simp only [hc, Run.inBounds, List.all_cons, List.all_nil, Bool.and_true, Span.inside]
      refine ⟨trivial, trivial, trivial, ?_, ?_, ?_⟩
      · unfold addSz SIZE_MOD at *
        rw [Bool.eq_iff_iff]
        simp only [Bool.and_eq_true, Bool.or_eq_true, beq_iff_eq, decide_eq_true_eq]
        omega
      · intro hno
        unfold addSz SIZE_MOD at *
        simp only [Bool.and_eq_true, Bool.or_eq_true, beq_iff_eq, decide_eq_true_eq]
        omega
      · intro hin i _
        simp only [Bool.and_eq_true, Bool.or_eq_true, beq_iff_eq, decide_eq_true_eq] at hin
        have hw1 : addSz s.written lenA = s.written + lenA := by
          unfold addSz SIZE_MOD at *
          omega
        rw [hw1]
        exact memcpyIn_append s.m_buffer A B s.written lenA lenB i
    · rw [if_neg hB]
      have hz : lenB = 0 := by omega
      subst hz
      simp only [Run.inBounds, List.all_cons, List.all_nil, Bool.and_true, Span.inside,
        Nat.add_zero]
      refine ⟨trivial, trivial, trivial, trivial, ?_, ?_⟩
      · intro hno
        unfold addSz SIZE_MOD at *
        simp only [Bool.or_eq_true, beq_iff_eq, decide_eq_true_eq]
        omega
      · intro _ i _
        have := memcpyIn_append s.m_buffer A B s.written lenA 0 i
        rw [Nat.add_zero] at this
        rw [← this]
        unfold memcpyIn
        have hnone : ¬ (s.written + lenA ≤ i ∧ i < s.written + lenA + 0) := by omega
        rw [if_neg hnone]

/-- Witness for C6: six bytes and three bytes behind five of sixteen. -/
theorem Write2_agrees_with_Write_append_witness :
    fiveOfSixteen.space < SIZE_MOD ∧ fiveOfSixteen.written ≤ fiveOfSixteen.space
      ∧ 6 + 3 < SIZE_MOD
      ∧ (fiveOfSixteen.Write2 sampleData sampleData 6 3).ret
          = (fiveOfSixteen.Write (appendRegions sampleData 6 sampleData) (6 + 3)).ret
      ∧ (fiveOfSixteen.Write2 sampleData sampleData 6 3).ret = true
      ∧ (fiveOfSixteen.Write2 sampleData sampleData 6 3).inBounds = true :=
  ⟨by decide, by decide, by decide,
    (Write2_agrees_with_Write_append fiveOfSixteen sampleData sampleData 6 3
      (by decide) (by decide) (by decide)).1,
    by decide, by decide⟩

/-- C7: when `written ≤ space`, `space` is a `size_t` and `len < written`,
`Read(destination, len)` returns true, stores exactly the old bytes
`m_buffer[0 .. len)` into the destination, leaves `written = old written - len`
(and `space` as it was), and the new bytes at `[0, written - len)` are the old
bytes at `[len, old written)` in order. -/
theorem Read_success (s : StraightBuffer) (len : Nat)
    (hs : s.space < SIZE_MOD) (hw : s.written ≤ s.space) (hlen : len < s.written) :
    (s.Read len).ret.1 = true
      ∧ (s.Read len).ret.2 = (List.range len).map s.m_buffer
      ∧ (s.Read len).buffer.written = s.written - len
      ∧ (s.Read len).buffer.space = s.space
      ∧ (∀ i, i < s.written - len → (s.Read len).buffer.m_buffer i = s.m_buffer (len + i)) := by
  have hno : ¬ (s.written ≤ len) := by omega
  have hsub : subSz s.written len = s.written - len := subSz_of_le (by omega) (by omega)
  unfold StraightBuffer.Read
  rw [if_neg hno]
  simp only [hsub, memcpyOut]
  refine ⟨trivial, trivial, trivial, trivial, ?_⟩
  intro i hi
  exact memcpyWithin_front s.m_buffer len (s.written - len) i hi

/-- Witness for C7: two of the five stored bytes are read. -/
theorem Read_success_witness :
    fiveOfSixteen.space < SIZE_MOD ∧ fiveOfSixteen.written ≤ fiveOfSixteen.space
      ∧ 2 < fiveOfSixteen.written
      ∧ (fiveOfSixteen.Read 2).ret.1 = true
      ∧ (fiveOfSixteen.Read 2).ret.2 = [1, 2]
      ∧ (fiveOfSixteen.Read 2).buffer.contents = [3, 4, 5] :=
  ⟨by decide, by decide, by decide,
    (Read_success fiveOfSixteen 2 (by decide) (by decide) (by decide)).1,
    by decide, by decide⟩

/-- C8: whenever `written ≤ len` (equality included), `Read(destination, len)`
returns false, stores all the old valid bytes `m_buffer[0 .. written)` into
the destination, and leaves `written = 0`. -/
theorem Read_short_drains (s : StraightBuffer) (len : Nat) (h : s.written ≤ len) :
    (s.Read len).ret.1 = false
      ∧ (s.Read len).ret.2 = (List.range s.written).map s.m_buffer
      ∧ (s.Read len).buffer.written = 0 := by
  unfold StraightBuffer.Read
  rw [if_pos h]
  exact ⟨rfl, rfl, rfl⟩

/-- Witness for C8: asking for exactly the five stored bytes fails and drains
the buffer. -/
theorem Read_short_drains_witness :
    fiveOfSixteen.written ≤ 5
      ∧ (fiveOfSixteen.Read 5).ret.1 = false
      ∧ (fiveOfSixteen.Read 5).ret.2 = [1, 2, 3, 4, 5]
      ∧ (fiveOfSixteen.Read 5).buffer.written = 0 :=
  ⟨by decide, (Read_short_drains fiveOfSixteen 5 (by decide)).1, by decide,
    (Read_short_drains fiveOfSixteen 5 (by decide)).2.2⟩

/-- C9 (counterexample): on the allocated buffer holding five bytes,
`Read(destination, 7)` has `written < len` and its `ASSERT( written >= bytes )`
fails. -/
theorem Read_short_fails_assertion :
    fiveOfSixteen.space = 16 ∧ fiveOfSixteen.written < 7
      ∧ (fiveOfSixteen.Read 7).assertFailed = true := by
  decide

/-- C9 (amended): `Read(destination, len)` fails an assertion exactly when
`written < len`, and returns true exactly when `len < written`; so
`written = len` is reported through the false return value alone, and
`written < len` through the false return value and the failed assertion. -/
theorem Read_assertion_iff (s : StraightBuffer) (len : Nat) :
    (s.Read len).assertFailed = decide (s.written < len)
      ∧ (s.Read len).ret.1 = decide (len < s.written) := by
  unfold StraightBuffer.Read ASSERT
  by_cases h : s.written ≤ len
  · rw [if_pos h]
    have h1 : ¬ (len < s.written) := by omega
    by_cases h2 : s.written < len
    · have h3 : ¬ (s.written ≥ len) := by omega
      simp [h1, h2, h3]
    · have h3 : s.written ≥ len := by omega
      simp [h1, h2, h3]
  · rw [if_neg h]
    have h1 : len < s.written := by omega
    have h2 : ¬ (s.written < len) := by omega
    simp [h1, h2]

/-- C10: when `written ≤ space` and `space` is a `size_t`, after `Remove(n)`
the size is `max(0, previous_size - n)`, `space` is as it was, the surviving
valid bytes are the old bytes at `[n, previous_size)` in order, and for
`n ≥ previous_size` the buffer is empty. -/
theorem Remove_post (s : StraightBuffer) (n : Nat)
    (hs : s.space < SIZE_MOD) (hw : s.written ≤ s.space) :
    (((s.Remove n).buffer.GetSize : Nat) : Int) = max 0 ((s.written : Int) - (n : Int))
      ∧ (s.Remove n).buffer.space = s.space
      ∧ (∀ i, i < s.written - n → (s.Remove n).buffer.m_buffer i = s.m_buffer (n + i))
      ∧ (n ≥ s.written → (s.Remove n).buffer.written = 0) := by
  unfold StraightBuffer.Remove StraightBuffer.GetSize
  by_cases h : n ≥ s.written
  · simp only [if_pos h]
    refine ⟨by omega, trivial, ?_, fun _ => trivial⟩
    intro i hi
    omega
  · have hsub : subSz s.written n = s.written - n := subSz_of_le (by omega) (by omega)
    have hpos : s.written - n ≠ 0 := by omega
    simp only [if_neg h, hsub, if_pos hpos]
    refine ⟨by omega, trivial, ?_, fun h2 => absurd h2 h⟩
    intro i hi
    exact memcpyWithin_front s.m_buffer n (s.written - n) i hi

/-- Witness for C10: two bytes removed from five, and nine removed from five. -/
theorem Remove_post_witness :
    fiveOfSixteen.space < SIZE_MOD ∧ fiveOfSixteen.written ≤ fiveOfSixteen.space
      ∧ (((fiveOfSixteen.Remove 2).buffer.GetSize : Nat) : Int)
          = max 0 ((fiveOfSixteen.written : Int) - ((2 : Nat) : Int))
      ∧ (fiveOfSixteen.Remove 2).buffer.contents = [3, 4, 5]
      ∧ (fiveOfSixteen.Remove 9).buffer.contents = [] :=
  ⟨by decide, by decide, (Remove_post fiveOfSixteen 2 (by decide) (by decide)).1,
    by decide, by decide⟩

/-! ## Shapes of the calls, shared by the claims below -/

theorem Remove_assertFailed (s : StraightBuffer) (len : Nat) :
    (s.Remove len).assertFailed = ASSERT false (len == 0 || decide (s.written ≥ len)) := by
  unfold StraightBuffer.Remove
  simp only
  split
  · rfl
  · split <;> rfl

theorem IncrementWritten_of_fit (s : StraightBuffer) (len : Nat)
    (hs : s.space < SIZE_MOD) (hfit : s.written + len < s.space) :
    s.IncrementWritten len =
      { ret := (), buffer := { s with written := s.written + len }, touched := []
        assertFailed := false } := by
  have hadd : addSz s.written len = s.written + len := addSz_of_lt (by omega)
  have hlt : addSz s.written len < s.space := by omega
  unfold StraightBuffer.IncrementWritten
  rw [if_pos hlt, hadd]

theorem Write_of_fit (s : StraightBuffer) (data : Nat → Byte) (len : Nat)
    (hs : s.space < SIZE_MOD) (hfit : s.written + len < s.space) :
    s.Write data len =
      { ret := true
        buffer := { s with m_buffer := memcpyIn s.m_buffer s.written data len
                           written := s.written + len }
        touched := [⟨s.written, len⟩]
        assertFailed := false } := by
  have hadd : addSz s.written len = s.written + len := addSz_of_lt (by omega)
  have hno : ¬ (addSz s.written len ≥ s.space) := by omega
  unfold StraightBuffer.Write
  rw [if_neg hno, hadd]

theorem Write_of_full (s : StraightBuffer) (data : Nat → Byte) (len : Nat)
    (hfull : addSz s.written len ≥ s.space) :
    s.Write data len = { ret := false, buffer := s, touched := [], assertFailed := false } := by
  unfold StraightBuffer.Write
  rw [if_pos hfull]

theorem Read_of_lt (s : StraightBuffer) (len : Nat)
    (hs : s.written < SIZE_MOD) (hlen : len < s.written) :
    s.Read len =
      { ret := (true, memcpyOut s.m_buffer len)
        buffer := { s with m_buffer := memcpyWithin s.m_buffer 0 len (s.written - len)
                           written := s.written - len }
        touched := [⟨0, len⟩, ⟨len, s.written - len⟩, ⟨0, s.written - len⟩]
        assertFailed := false } := by
  have hno : ¬ (s.written ≤ len) := by omega
  have hsub : subSz s.written len = s.written - len := subSz_of_le (by omega) hs
  unfold StraightBuffer.Read
  rw [if_neg hno]
  simp only [hsub]

/-- For sums that do not overflow `size_t`, `IncrementWritten` follows the
three cases of the sum against `space`: add, clamp with an error, reset with
an error. -/
theorem IncrementWritten_of_no_wrap (s : StraightBuffer) (len : Nat)
    (hs : s.space < SIZE_MOD) (hsum : s.written + len < SIZE_MOD) :
    (s.written + len < s.space →
        (s.IncrementWritten len).buffer.written = s.written + len
          ∧ (s.IncrementWritten len).assertFailed = false)
      ∧ (s.written + len ≥ s.space → len < s.space →
        (s.IncrementWritten len).buffer.written = s.space - len
          ∧ (s.IncrementWritten len).assertFailed = true)
      ∧ (len ≥ s.space →
        (s.IncrementWritten len).buffer.written = 0
          ∧ (s.IncrementWritten len).assertFailed = true) := by
  have hadd : addSz s.written len = s.written + len := addSz_of_lt hsum
  unfold StraightBuffer.IncrementWritten
  rw [hadd]
  refine ⟨?_, ?_, ?_⟩
  · intro h
    rw [if_pos h]
    exact ⟨rfl, rfl⟩
  · intro h1 h2
    have hno : ¬ (s.written + len < s.space) := by omega
    have hsub : subSz s.space len = s.space - len := subSz_of_le (by omega) hs
    rw [if_neg hno, if_pos h2]
    exact ⟨hsub, rfl⟩
  · intro h
    have hno : ¬ (s.written + len < s.space) := by omega
    have hno2 : ¬ (len < s.space) := by omega
    rw [if_neg hno, if_neg hno2]
    exact ⟨rfl, rfl⟩

/-! ## Claims, continued -/

/-- C11: the assertion of `Remove(len)` fails if and only if `len > written`;
`Remove(0)` and `Remove(written)` never trip it. -/
theorem Remove_assertion_iff (s : StraightBuffer) (len : Nat) :
    (s.Remove len).assertFailed = decide (len > s.written)
      ∧ (s.Remove 0).assertFailed = false
      ∧ (s.Remove s.written).assertFailed = false := by
  rw [Remove_assertFailed, Remove_assertFailed, Remove_assertFailed]
  unfold ASSERT
  refine ⟨?_, ?_, ?_⟩
  · by_cases h : len > s.written
    · have h1 : len ≠ 0 := by omega
      have h2 : ¬ (s.written ≥ len) := by omega
      simp [h, h1, h2]
    · have h2 : s.written ≥ len := by omega
      simp [h, h2]
  · simp
  · simp

/-- C12 (failing input): the buffer reached by `Allocate(2^64 - 1)` and
`IncrementWritten(2^64 - 2)` has `written = 2^64 - 2 ≤ space = 2^64 - 1`.  For
`len = 2^64 - 2` the sum `written + len` is at least `space` and `len < space`,
yet `IncrementWritten(len)` sets `written` to `2^64 - 4` instead of
`space - len = 1` and no assertion fails. -/
theorem IncrementWritten_misses_clamp :
    hugeAlmostFull.written ≤ hugeAlmostFull.space
      ∧ hugeAlmostFull.space < SIZE_MOD
      ∧ hugeAlmostFull.written + 18446744073709551614 ≥ hugeAlmostFull.space
      ∧ 18446744073709551614 < hugeAlmostFull.space
      ∧ hugeAlmostFull.space - 18446744073709551614 = 1
      ∧ (hugeAlmostFull.IncrementWritten 18446744073709551614).buffer.written
          = 18446744073709551612
      ∧ (hugeAlmostFull.IncrementWritten 18446744073709551614).assertFailed = false := by
  decide

/-- C13 (failing input): on the buffer with `space = 16`, `written = 5` the
length `2^64 - 3` is a `size_t` and at least `space`, yet
`IncrementWritten(2^64 - 3)` leaves `written = 2` and no assertion fails,
because `5 + (2^64 - 3)` wraps to 2.  On the empty buffer of capacity 16,
`IncrementWritten(20)` does reset to 0 with a failed assertion. -/
theorem IncrementWritten_misses_reset :
    fiveOfSixteen.written ≤ fiveOfSixteen.space ∧ fiveOfSixteen.space = 16
      ∧ 18446744073709551613 < SIZE_MOD
      ∧ 18446744073709551613 ≥ fiveOfSixteen.space
      ∧ (fiveOfSixteen.IncrementWritten 18446744073709551613).buffer.written = 2
      ∧ (fiveOfSixteen.IncrementWritten 18446744073709551613).assertFailed = false
      ∧ ((StraightBuffer.new.Allocate 16 (fun _ => 0)).IncrementWritten 20).buffer.written = 0
      ∧ ((StraightBuffer.new.Allocate 16 (fun _ => 0)).IncrementWritten 20).assertFailed
          = true := by
  decide

/-- C14 (failing input): after `Allocate(16)` and a `Write` of five bytes,
`GetSpace() + GetSize()` is 16.  The next call
`Write(data, data1, 3, 2^64 - 3)` copies three bytes to `[5, 8)` and then
`2^64 - 3` bytes to `[8, 8 + 2^64 - 3)`, which leaves the block of 16 bytes, so
there is no defined object after the call whose `GetSpace() + GetSize()` could
be compared with the capacity. -/
theorem wrapped_Write2_leaves_no_sizes :
    16 < SIZE_MOD
      ∧ fiveOfSixteen.GetSpace + fiveOfSixteen.GetSize = 16
      ∧ (fiveOfSixteen.Write2 sampleData sampleData 3 18446744073709551613).touched
          = [⟨5, 3⟩, ⟨8, 18446744073709551613⟩]
      ∧ 8 + 18446744073709551613 > fiveOfSixteen.space
      ∧ (runCalls (StraightBuffer.new.Allocate 16 (fun _ => 0)) wrappingCalls).map
          (fun t => t.GetSpace + t.GetSize) = none := by
  decide

/-- C15: `Allocate(size)`, for `size` a `size_t`, called on a newly
constructed object gives `space = size`, `written = 0`, `GetSize() = 0` and
`GetSpace() = size`; and the same holds in every state the object can be in
when its storage is allocated, that is after any sequence of calls made on
the new object before `Allocate`: each such sequence has defined behaviour and
ends in an object `s` for which `Allocate(size)` gives these values. -/
theorem Allocate_post (calls : List Call) (size : Nat) (block : Nat → Byte)
    (hsize : size < SIZE_MOD) :
    (StraightBuffer.new.Allocate size block).space = size
      ∧ (StraightBuffer.new.Allocate size block).written = 0
      ∧ (StraightBuffer.new.Allocate size block).GetSize = 0
      ∧ (StraightBuffer.new.Allocate size block).GetSpace = size
      ∧ (∃ s, runCalls StraightBuffer.new calls = some s
          ∧ (s.Allocate size block).space = size
          ∧ (s.Allocate size block).written = 0
          ∧ (s.Allocate size block).GetSize = 0
          ∧ (s.Allocate size block).GetSpace = size) := by
  have h0 : subSz size 0 = size := by
    have := subSz_of_le (Nat.zero_le size) hsize
    simpa using this
  refine ⟨rfl, rfl, rfl, h0, ?_⟩
  obtain ⟨s, hs, hw, _⟩ := runCalls_unallocated calls StraightBuffer.new rfl rfl
  refine ⟨s, hs, rfl, hw, hw, ?_⟩
  unfold StraightBuffer.GetSpace StraightBuffer.Allocate
  simp only [hw]
  exact h0

/-- Witness for C15: `Allocate(64)` on a new object, directly and after a
refused `Write` and a `Read` on the still empty object. -/
theorem Allocate_post_witness :
    64 < SIZE_MOD
      ∧ (StraightBuffer.new.Allocate 64 (fun _ => 0)).space = 64
      ∧ (StraightBuffer.new.Allocate 64 (fun _ => 0)).written = 0
      ∧ (StraightBuffer.new.Allocate 64 (fun _ => 0)).GetSpace = 64
      ∧ (∃ s, runCalls StraightBuffer.new [Call.write sampleData 3, Call.read 2] = some s
          ∧ (s.Allocate 64 (fun _ => 0)).space = 64
          ∧ (s.Allocate 64 (fun _ => 0)).written = 0
          ∧ (s.Allocate 64 (fun _ => 0)).GetSize = 0
          ∧ (s.Allocate 64 (fun _ => 0)).GetSpace = 64) :=
  ⟨by decide,
    (Allocate_post [Call.write sampleData 3, Call.read 2] 64 (fun _ => 0) (by decide)).1,
    (Allocate_post [Call.write sampleData 3, Call.read 2] 64 (fun _ => 0) (by decide)).2.1,
    (Allocate_post [Call.write sampleData 3, Call.read 2] 64 (fun _ => 0)
      (by decide)).2.2.2.1,
    (Allocate_post [Call.write sampleData 3, Call.read 2] 64 (fun _ => 0)
      (by decide)).2.2.2.2⟩

/-- C16: round trip.  For a capacity `C` (a `size_t`), bytes `b` of length
`lenB < C`, bytes `c` of length `lenC` with `lenB + lenC ≥ C` (the sum being a
`size_t`, as for data that lies in memory beside the stored bytes) and
`n < lenB`, starting from `Allocate(C)` on a new object: `Write(b)` returns
true with `GetSize() = lenB` and `GetSpace() = C - lenB`; `Write(c)` then
returns false and `GetSize()` is still `lenB`; `Read(dest, n)` then returns
true, `dest` is `b[0 .. n)`, `GetSize() = lenB - n`, and the valid bytes are
`b[n .. lenB)`. -/
theorem round_trip (C : Nat) (block b c : Nat → Byte) (lenB lenC n : Nat)
    (hC : C < SIZE_MOD) (hb : lenB < C) (hc : lenB + lenC ≥ C)
    (hsum : lenB + lenC < SIZE_MOD) (hn : n < lenB) :
    ((StraightBuffer.new.Allocate C block).Write b lenB).ret = true
      ∧ ((StraightBuffer.new.Allocate C block).Write b lenB).buffer.GetSize = lenB
      ∧ ((StraightBuffer.new.Allocate C block).Write b lenB).buffer.GetSpace = C - lenB
      ∧ (((StraightBuffer.new.Allocate C block).Write b lenB).buffer.Write c lenC).ret = false
      ∧ (((StraightBuffer.new.Allocate C block).Write b lenB).buffer.Write c lenC).buffer.GetSize
          = lenB
      ∧ ((((StraightBuffer.new.Allocate C block).Write b lenB).buffer.Write c lenC).buffer.Read
            n).ret = (true, (List.range n).map b)
      ∧ ((((StraightBuffer.new.Allocate C block).Write b lenB).buffer.Write c lenC).buffer.Read
            n).buffer.GetSize = lenB - n
      ∧ (∀ i, i < lenB - n →
          ((((StraightBuffer.new.Allocate C block).Write b lenB).buffer.Write c lenC).buffer.Read
            n).buffer.m_buffer i = b (n + i)) := by
  have hw0 : (StraightBuffer.new.Allocate C block).written = 0 := rfl
  have hsp0 : (StraightBuffer.new.Allocate C block).space = C := rfl
  have hm0 : (StraightBuffer.new.Allocate C block).m_buffer = block := rfl
  have h1 := Write_of_fit (StraightBuffer.new.Allocate C block) b lenB
    (by rw [hsp0]; exact hC) (by rw [hw0, hsp0]; omega)
  rw [hw0, hsp0, hm0, Nat.zero_add] at h1
  rw [h1]
  have hfull : addSz lenB lenC ≥ C := by rw [addSz_of_lt hsum]; exact hc
  have h2 := Write_of_full ⟨memcpyIn block 0 b lenB, C, lenB⟩ c lenC hfull
  have h3 := Read_of_lt ⟨memcpyIn block 0 b lenB, C, lenB⟩ n
    (show lenB < SIZE_MOD by omega) hn
  simp only [h2, h3]
  have hsub : subSz C lenB = C - lenB := subSz_of_le (by omega) hC
  refine ⟨trivial, rfl, hsub, trivial, rfl, ?_, rfl, ?_⟩
  · congr 1
    unfold memcpyOut
    apply List.map_congr_left
    intro i hi
    have hi2 : i < n := List.mem_range.mp hi
    have hin : 0 ≤ i ∧ i < 0 + lenB := by omega
    unfold memcpyIn
    rw [if_pos hin]
    rfl
  · intro i hi
    rw [memcpyWithin_front _ n (lenB - n) i hi]
    have hin : 0 ≤ n + i ∧ n + i < 0 + lenB := by omega
    unfold memcpyIn
    rw [if_pos hin]
    rfl

/-- Witness for C16: capacity 64, forty bytes, then thirty more, then ten read. -/
theorem round_trip_witness :
    64 < SIZE_MOD ∧ 40 < 64 ∧ 40 + 30 ≥ 64 ∧ 40 + 30 < SIZE_MOD ∧ 10 < 40
      ∧ ((StraightBuffer.new.Allocate 64 (fun _ => 0)).Write sampleData 40).ret = true
      ∧ ((StraightBuffer.new.Allocate 64 (fun _ => 0)).Write sampleData 40).buffer.GetSpace
          = 64 - 40
      ∧ (((StraightBuffer.new.Allocate 64 (fun _ => 0)).Write sampleData 40).buffer.Write
            sampleData 30).ret = false
      ∧ ((((StraightBuffer.new.Allocate 64 (fun _ => 0)).Write sampleData 40).buffer.Write
            sampleData 30).buffer.Read 10).buffer.GetSize = 40 - 10 :=
  ⟨by decide, by decide, by decide, by decide, by decide,
    (round_trip 64 (fun _ => 0) sampleData sampleData 40 30 10
      (by decide) (by decide) (by decide) (by decide) (by decide)).1,
    (round_trip 64 (fun _ => 0) sampleData sampleData 40 30 10
      (by decide) (by decide) (by decide) (by decide) (by decide)).2.2.1,
    (round_trip 64 (fun _ => 0) sampleData sampleData 40 30 10
      (by decide) (by decide) (by decide) (by decide) (by decide)).2.2.2.1,
    (round_trip 64 (fun _ => 0) sampleData sampleData 40 30 10
      (by decide) (by decide) (by decide) (by decide) (by decide)).2.2.2.2.2.2.1⟩

/-- C17: when `space` is a `size_t` and `written + len < space`, `GetBuffer()`
points at index `written`; storing `data[0 .. len)` there and then calling
`IncrementWritten(len)` flags no error and leaves the same `written` and the
same valid bytes as `Write(data, len)`, which returns true: the two objects
are equal as a whole. -/
theorem direct_write_agrees_with_Write (s : StraightBuffer) (data : Nat → Byte) (len : Nat)
    (hs : s.space < SIZE_MOD) (hfit : s.written + len < s.space) :
    s.GetBuffer = s.written
      ∧ ((directWrite s data len).IncrementWritten len).buffer.written
          = (s.Write data len).buffer.written
      ∧ (∀ i, i < (s.Write data len).buffer.written →
          ((directWrite s data len).IncrementWritten len).buffer.m_buffer i
            = (s.Write data len).buffer.m_buffer i)
      ∧ ((directWrite s data len).IncrementWritten len).assertFailed = false
      ∧ (s.Write data len).ret = true
      ∧ ((directWrite s data len).IncrementWritten len).buffer = (s.Write data len).buffer := by
  have hI := IncrementWritten_of_fit (directWrite s data len) len hs hfit
  have hW := Write_of_fit s data len hs hfit
  rw [hI, hW]
  exact ⟨rfl, rfl, fun _ _ => rfl, rfl, rfl, rfl⟩

/-- Witness for C17: seven bytes stored directly behind five of sixteen. -/
theorem direct_write_agrees_with_Write_witness :
    fiveOfSixteen.space < SIZE_MOD ∧ fiveOfSixteen.written + 7 < fiveOfSixteen.space
      ∧ ((directWrite fiveOfSixteen sampleData 7).IncrementWritten 7).buffer.written
          = (fiveOfSixteen.Write sampleData 7).buffer.written
      ∧ ((directWrite fiveOfSixteen sampleData 7).IncrementWritten 7).buffer.contents
          = [1, 2, 3, 4, 5, 101, 102, 103, 104, 105, 106, 107] :=
  ⟨by decide, by decide,
    (direct_write_agrees_with_Write fiveOfSixteen sampleData 7 (by decide) (by decide)).2.1,
    by decide⟩

/-- C18 (failing input): capacity 16 is positive and the buffer holding five
bytes has `written < space`.  The next call `Write(data, data1, 3, 2^64 - 3)`
hands `memcpy` a range that contains index 16, outside the block, so the call
has undefined behaviour and there is no defined object after it in which
`written < space` could hold. -/
theorem wrapped_Write2_copies_behind_block :
    0 < 16 ∧ fiveOfSixteen.space = 16 ∧ fiveOfSixteen.written < fiveOfSixteen.space
      ∧ (∃ sp ∈ (fiveOfSixteen.Write2 sampleData sampleData 3 18446744073709551613).touched,
          sp.start ≤ 16 ∧ 16 < sp.start + sp.len)
      ∧ (Call.apply fiveOfSixteen (Call.write2 sampleData sampleData 3 18446744073709551613)).isSome = false
      ∧ (runCalls (StraightBuffer.new.Allocate 16 (fun _ => 0)) wrappingCalls).map
          (fun t => decide (t.written < t.space)) = none := by
  refine ⟨by decide, by decide, by decide,
    ⟨⟨8, 18446744073709551613⟩, by decide, by decide, by decide⟩, by decide, by decide⟩

/-- C19: for every state and every `len`, the object after
`Read(destination, len)` is the object after `Remove(len)`: the same
`written`, `space` and memory, hence the same valid bytes, whether `Read`
returns true (`len < written`) or false (`len ≥ written`). -/
theorem Read_buffer_eq_Remove_buffer (s : StraightBuffer) (len : Nat) :
    (s.Read len).buffer = (s.Remove len).buffer
      ∧ (s.Read len).buffer.written = (s.Remove len).buffer.written
      ∧ (s.Read len).buffer.contents = (s.Remove len).buffer.contents := by
  have key : (s.Read len).buffer = (s.Remove len).buffer := by
    unfold StraightBuffer.Read StraightBuffer.Remove
    by_cases h : s.written ≤ len
    · have h2 : len ≥ s.written := h
      simp only [if_pos h, if_pos h2]
    · have h2 : ¬ (len ≥ s.written) := h
      simp only [if_neg h, if_neg h2]
      by_cases h3 : subSz s.written len ≠ 0
      · rw [if_pos h3]
      · rw [if_neg h3]
        have h0 : subSz s.written len = 0 := by
          by_contra hne
          exact h3 hne
        rw [h0]
        rfl
  exact ⟨key, by rw [key], by rw [key]⟩

/-- C20: `Read(destination, len)` stores at most `len` bytes into the
destination: exactly `len` when it returns true, and exactly the old
`written`, which is then at most `len`, when it returns false. -/
theorem Read_destination_length (s : StraightBuffer) (len : Nat) :
    (s.Read len).ret.2.length ≤ len
      ∧ ((s.Read len).ret.1 = true → (s.Read len).ret.2.length = len)
      ∧ ((s.Read len).ret.1 = false →
          (s.Read len).ret.2.length = s.written ∧ s.written ≤ len) := by
  unfold StraightBuffer.Read
  by_cases h : s.written ≤ len
  · simp only [if_pos h, memcpyOut, List.length_map, List.length_range]
    exact ⟨h, fun hc => by simp at hc, fun _ => ⟨trivial, h⟩⟩
  · simp only [if_neg h, memcpyOut, List.length_map, List.length_range]
    exact ⟨Nat.le_refl _, fun _ => trivial, fun hc => by simp at hc⟩

/-- Witness for C20: two bytes asked of five gives two; seven asked of five
gives five. -/
theorem Read_destination_length_witness :
    (fiveOfSixteen.Read 2).ret.1 = true ∧ (fiveOfSixteen.Read 2).ret.2.length = 2
      ∧ (fiveOfSixteen.Read 7).ret.1 = false ∧ (fiveOfSixteen.Read 7).ret.2.length = 5 :=
  ⟨by decide, (Read_destination_length fiveOfSixteen 2).2.1 (by decide),
    by decide, ((Read_destination_length fiveOfSixteen 7).2.2 (by decide)).1⟩
